import Mathlib

/-!
Verification of the hybrid PDF text-extraction pipeline
(`src/pipeline/pdf_utils.py`, `src/pipeline/ocr.py`).

Shallow embedding conventions:
* Python strings are Lean `String` (a list of Unicode code points); `str.strip`
  is modelled over the ASCII whitespace repertoire actually occurring in the
  pipeline's markers and heuristics.
* Python floats are modelled as exact rationals (`ℚ`); every float comparison
  in the source compares a ratio of machine integers against a literal
  threshold, and for the input sizes the code can see the float comparison
  and the exact rational comparison agree.
* Python `str.isalpha` is modelled on the character repertoire relevant to
  this code base (ASCII letters, the Cyrillic block, and the dotted/dotless
  `i` glyphs from the broken-glyph set).
* The OCR engine (PaddleOCR) is an external collaborator; its behaviour is
  modelled as a response value `Except String OcrResponse`, where `.error`
  stands for an exception raised while initializing or invoking the engine.
-/

namespace PdfPipeline

-- The Batteries rational-number operations are `@[irreducible]`; unseal them
-- so that concrete witnesses evaluate by `decide`.
unseal Rat.add Rat.mul Rat.sub Rat.inv

/-- Whitespace test used to model Python `str.strip` / `str.isspace`
(restricted to the ASCII whitespace characters that the pipeline emits). -/
def isPyWs (c : Char) : Bool := c.isWhitespace

/-- Drop leading and trailing whitespace from a list of characters:
the model of Python `str.strip()`. -/
def trimChars (l : List Char) : List Char :=
  ((l.dropWhile isPyWs).reverse.dropWhile isPyWs).reverse

/-- Model of Python `str.strip()`. -/
def pyStrip (s : String) : String := ⟨trimChars s.data⟩

/-- Model of Python `sep.join(parts)`. -/
def pyJoin (sep : String) : List String → String
  | [] => ""
  | [s] => s
  | s :: rest => s ++ sep ++ pyJoin sep (rest)

/-- Does `pat` occur at the head of `l`?  (Helper for substring search.) -/
def leadMatch : List Char → List Char → Bool
  | [], _ => true
  | _ :: _, [] => false
  | a :: as, b :: bs => a == b && leadMatch as bs

/-- Does `pat` occur contiguously inside `l`?  Model of Python `pat in s`. -/
def occursIn (pat : List Char) : List Char → Bool
  | [] => leadMatch pat []
  | c :: rest => leadMatch pat (c :: rest) || occursIn pat rest

/-- Model of Python `kw in text` (substring containment). -/
def pyIn (kw text : String) : Bool := occursIn kw.data text.data

/-- The broken-glyph set from `_looks_corrupted_text`
(`pdf_utils.py` line 210): `{'I', 'l', '|', 'ı', 'İ'}`. -/
def brokenGlyphs : List Char := ['I', 'l', '|', 'ı', 'İ']

/-- Model of Python `str.isalpha` on the repertoire this code manipulates:
ASCII letters, the Cyrillic block U+0400–U+04FF, and the Turkish dotted /
dotless `i` glyphs appearing in the broken-glyph set. -/
def pyIsAlpha (c : Char) : Bool :=
  c.isAlpha || ('Ѐ' ≤ c && c ≤ 'ӿ') || c == 'ı' || c == 'İ'

/-- Cyrillic test from `pdf_utils.py` line 215:
`'А' <= ch <= 'я' or ch in 'Ёё'`. -/
def isCyr (c : Char) : Bool := ('А' ≤ c && c ≤ 'я') || c == 'Ё' || c == 'ё'

/-- Keyword list from `pdf_utils.py` line 223. -/
def corruptionKeywords : List String :=
  ["КОНТРАКТ", "Дата", "Контрагент", "Страна", "Валюта", "Сумма"]

/-- Corruption heuristic, from `_looks_corrupted_text`
(`pdf_utils.py` lines 196–226).  Float ratio comparisons
(`uniq_ratio < 0.20`, `bad_ratio >= 0.5`, `cyr_ratio < 0.02`) are modelled
by the equivalent exact integer comparisons. -/
def looks_corrupted_text (text : String) : Bool :=
  if text = "" then true
  else
    -- s = text.replace("\n", "")
    let s := text.data.filter (fun c => c ≠ '\n')
    if s.length < 20 then true
    else
      -- uniq_ratio = len(set(s)) / len(s);  uniq_ratio < 0.20
      let uniqLow := 5 * s.dedup.length < s.length
      -- letters = [ch for ch in s if ch.isalpha()]
      let letters := s.filter pyIsAlpha
      -- bad_ratio = bad / len(letters) if letters else 0.0;  bad_ratio >= 0.5
      let badHigh :=
        if letters.length = 0 then false
        else letters.length ≤ 2 * (letters.filter (fun c => brokenGlyphs.contains c)).length
      -- cyr_ratio = cyr / len(s);  cyr_ratio < 0.02
      let cyrLow := 50 * (s.filter isCyr).length < s.length
      if badHigh then true
      else if uniqLow && letters.length != 0 then true
      else if (corruptionKeywords.any (fun kw => pyIn kw text)) && cyrLow then true
      else false

/-- The four corruption conditions exactly as the claim words them, with the
ratios written as rational-number divisions.  Conditions about character
classes are read over the newline-stripped candidate (condition 1 fixes that
reading); the keyword search is over the full text, as stated. -/
def corruptionClaimSpec (text : String) : Prop :=
  ((text.data.filter (fun c => c ≠ '\n')).length < 20)
  ∨ ((text.data.filter (fun c => c ≠ '\n')).filter pyIsAlpha ≠ [] ∧
      (1 : ℚ) / 2 ≤
        ((((text.data.filter (fun c => c ≠ '\n')).filter pyIsAlpha).filter
            (fun c => brokenGlyphs.contains c)).length : ℚ) /
          (((text.data.filter (fun c => c ≠ '\n')).filter pyIsAlpha).length : ℚ))
  ∨ ((((text.data.filter (fun c => c ≠ '\n')).dedup.length : ℚ) /
        ((text.data.filter (fun c => c ≠ '\n')).length : ℚ) < 1 / 5) ∧
      (text.data.filter (fun c => c ≠ '\n')).filter pyIsAlpha ≠ [])
  ∨ ((∃ kw ∈ corruptionKeywords, pyIn kw text = true) ∧
      (((text.data.filter (fun c => c ≠ '\n')).filter isCyr).length : ℚ) /
        ((text.data.filter (fun c => c ≠ '\n')).length : ℚ) < 1 / 50)

/-! ### OCR detection geometry (`src/pipeline/ocr.py`) -/

/-- One detection item of the legacy PaddleOCR response shape
`(box, (text, confidence))`.  `_flatten_result` (ocr.py lines 24–30)
normalizes the doubly-nested shape `[[item, ...]]` to `[item, ...]`;
the model receives the flattened list directly. -/
structure RawItem where
  box : List (ℚ × ℚ)
  text : String
  conf : ℚ
deriving DecidableEq

/-- A normalized bounding box as built by `_group_boxes_to_lines`
(ocr.py lines 37–52): text plus left/right edges, vertical center and
(clamped) height. -/
structure Box where
  text : String
  left : ℚ
  right : ℚ
  midY : ℚ
  height : ℚ
deriving DecidableEq

/-- Model of Python `int()` on a rational: truncation toward zero. -/
def pyInt (q : ℚ) : ℤ := if 0 ≤ q then q.floor else -((-q).floor)

/-- Model of Python `min` over a nonempty list (`0` as junk value on `[]`;
Python raises there, see `parse_old_format`). -/
def listMin : List ℤ → ℤ
  | [] => 0
  | x :: xs => xs.foldl min x

/-- Model of Python `max` over a nonempty list (`0` as junk value on `[]`). -/
def listMax : List ℤ → ℤ
  | [] => 0
  | x :: xs => xs.foldl max x

/-- Box construction from one legacy item (ocr.py lines 38–52):
`left/right/top/bottom` from the integer-truncated polygon coordinates,
`mid_y = (top+bottom)/2`, `height = max(1, bottom-top)`. -/
def mkBox (it : RawItem) : Box :=
  let xs := it.box.map (fun p => pyInt p.1)
  let ys := it.box.map (fun p => pyInt p.2)
  let top : ℚ := (listMin ys : ℤ)
  let bottom : ℚ := (listMax ys : ℤ)
  { text := it.text
    left := (listMin xs : ℤ)
    right := (listMax xs : ℤ)
    midY := (top + bottom) / 2
    height := max 1 (bottom - top) }

/-- Model of `statistics.median`: sort ascending; middle element for odd
length, mean of the two middle elements for even length. -/
def pyMedian (l : List ℚ) : ℚ :=
  let s := l.insertionSort (· ≤ ·)
  let n := s.length
  if n % 2 = 1 then s.getD (n / 2) 0
  else (s.getD (n / 2 - 1) 0 + s.getD (n / 2) 0) / 2

/-- Sort key of ocr.py line 58: `(mid_y, left)` lexicographically. -/
def byYX (a b : Box) : Prop :=
  a.midY < b.midY ∨ (a.midY = b.midY ∧ a.left ≤ b.left)

instance : DecidableRel byYX := fun a b => by
  unfold byYX; infer_instance

instance : IsTotal Box byYX where
  total a b := by
    unfold byYX
    rcases lt_trichotomy a.midY b.midY with h | h | h
    · exact Or.inl (Or.inl h)
    · rcases le_total a.left b.left with h' | h'
      · exact Or.inl (Or.inr ⟨h, h'⟩)
      · exact Or.inr (Or.inr ⟨h.symm, h'⟩)
    · exact Or.inr (Or.inl h)

instance : IsTrans Box byYX where
  trans a b c hab hbc := by
    unfold byYX at *
    rcases hab with h1 | ⟨h1, h1'⟩ <;> rcases hbc with h2 | ⟨h2, h2'⟩
    · exact Or.inl (h1.trans h2)
    · exact Or.inl (h2 ▸ h1)
    · exact Or.inl (h1 ▸ h2)
    · exact Or.inr ⟨h1.trans h2, h1'.trans h2'⟩

/-- Sort key of ocr.py line 89: the left edge. -/
def byLeft (a b : Box) : Prop := a.left ≤ b.left

instance : DecidableRel byLeft := fun a b => by
  unfold byLeft; infer_instance

instance : IsTotal Box byLeft where
  total a b := le_total a.left b.left

instance : IsTrans Box byLeft where
  trans _ _ _ hab hbc := le_trans hab hbc

/-- Word-merge loop of `_merge_boxes_into_words` (ocr.py lines 93–102):
walk the left-sorted boxes; a horizontal gap above `0.7 * median_h`
closes the current word, otherwise the texts are concatenated. -/
def mergeLoop (medianH : ℚ) (currentWord : String) (prev : Box) :
    List Box → List String
  | [] => [currentWord]
  | b :: rest =>
    if medianH * (7 / 10) < b.left - prev.right then
      currentWord :: mergeLoop medianH b.text b rest
    else
      mergeLoop medianH (currentWord ++ b.text) b rest

/-- `_merge_boxes_into_words` (ocr.py lines 84–103): sort by left edge,
merge into words, join words with single spaces. -/
def merge_boxes_into_words (boxes : List Box) (medianH : ℚ) : String :=
  match boxes.insertionSort byLeft with
  | [] => ""
  | b :: rest => pyJoin " " (mergeLoop medianH b.text b rest)

/-- Line-grouping sweep of `_group_boxes_to_lines` (ocr.py lines 65–79),
keeping only the grouping: a detection joins the current line while its
vertical center is within tolerance of the running group average, which is
updated incrementally. -/
def groupLoop (tol : ℚ) (current : List Box) (curY : ℚ) :
    List Box → List (List Box)
  | [] => [current]
  | b :: rest =>
    if |b.midY - curY| ≤ tol then
      groupLoop tol (current ++ [b])
        ((curY * (current.length : ℚ) + b.midY) / ((current.length : ℚ) + 1)) rest
    else
      current :: groupLoop tol [b] b.midY rest

/-- The sweep exactly as written in the source (ocr.py lines 65–79), with
each closed line immediately merged into a word string. -/
def sweepLines (tol medianH : ℚ) (current : List Box) (curY : ℚ) :
    List Box → List String
  | [] => [merge_boxes_into_words current medianH]
  | b :: rest =>
    if |b.midY - curY| ≤ tol then
      sweepLines tol medianH (current ++ [b])
        ((curY * (current.length : ℚ) + b.midY) / ((current.length : ℚ) + 1)) rest
    else
      merge_boxes_into_words current medianH :: sweepLines tol medianH [b] b.midY rest

/-- The boxes of `_group_boxes_to_lines` after the sort of ocr.py line 58. -/
def sortedBoxes (items : List RawItem) : List Box :=
  (items.map mkBox).insertionSort byYX

/-- Median detection height (ocr.py line 62), computed over the sorted box
list as the source does: `statistics.median(heights) if heights else 10`. -/
def groupMedianH (items : List RawItem) : ℚ :=
  if ((sortedBoxes items).map Box.height).isEmpty then 10
  else pyMedian ((sortedBoxes items).map Box.height)

/-- Line tolerance (ocr.py line 63): `max(8, median_h * 0.6)`. -/
def groupTol (items : List RawItem) : ℚ :=
  max 8 (groupMedianH items * (6 / 10))

/-- `_group_boxes_to_lines` (ocr.py lines 32–81): build boxes, sort by
`(mid_y, left)`, group into lines by the adaptive tolerance, merge each
line's members into words. -/
def group_boxes_to_lines (items : List RawItem) : List String :=
  if (items.map mkBox).isEmpty then []
  else
    match sortedBoxes items with
    | [] => []
    | b :: rest =>
      sweepLines (groupTol items) (groupMedianH items) [b] b.midY rest

/-- `_parse_old_format` (ocr.py lines 166–185).  A detection with an empty
polygon makes Python's `min()` raise inside `_group_boxes_to_lines`; the
exception is caught by this function's handler, which returns `""` — the
guard models that.  Otherwise: grouped lines joined by newlines, or, if no
lines were produced, the raw texts joined by spaces. -/
def parse_old_format (items : List RawItem) : String :=
  if items.any (fun it => it.box.isEmpty) then ""
  else
    let lines := group_boxes_to_lines items
    if lines.isEmpty then
      if items.isEmpty then "" else pyJoin " " (items.map RawItem.text)
    else pyJoin "\n" lines

/-- Structured-response filter of `run_ocr` (ocr.py lines 144–151): walk
`rec_texts` with index, take the score at the same index (default `0.0`
past the end of `rec_scores`), keep the text when the score exceeds `0.5`. -/
def structuredLines : List String → List ℚ → List String
  | [], _ => []
  | _ :: _, [] => []
  | t :: ts, c :: cs =>
    if 1 / 2 < c then t :: structuredLines ts cs else structuredLines ts cs

/-- The engine response consumed by `run_ocr` (ocr.py lines 130–158):
a falsy result, the new dict shape with parallel `rec_texts`/`rec_scores`
arrays, or the legacy list of `(box, (text, confidence))` tuples. -/
inductive OcrResponse where
  | empty : OcrResponse
  | structured (recTexts : List String) (recScores : List ℚ) : OcrResponse
  | legacy (items : List RawItem) : OcrResponse
deriving DecidableEq

/-- `run_ocr` (ocr.py lines 105–164) as a function of the engine
interaction's outcome.  `Except.error` stands for any exception raised while
lazily initializing the engine (`_get_ocr_model`) or invoking it — the
enclosing `try/except` converts all of those into the empty string.
The image-preprocessing performed before the engine call does not alter the
modelled response; its strong-mode choice (line 115) is `runOcrStrongChoice`
below. -/
def run_ocr (resp : Except String OcrResponse) : String :=
  match resp with
  | .error _ => ""
  | .ok .empty => ""
  | .ok (.structured ts ss) => pyJoin "\n" (structuredLines ts ss)
  | .ok (.legacy items) => parse_old_format items

/-- Page raster dimensions in pixels. -/
structure Img where
  width : ℕ
  height : ℕ
deriving DecidableEq

/-- Internal strong-preprocessing choice of `run_ocr` (ocr.py line 115),
taken when the caller lets `run_ocr` preprocess the image itself:
`strong = pil_img.width * pil_img.height > 1800 * 1800`. -/
def runOcrStrongChoice (img : Img) : Bool :=
  decide (1800 * 1800 < img.width * img.height)

/-! ### Page pipeline orchestrator (`src/pipeline/pdf_utils.py`) -/

/-- A text block returned by `page.get_text("blocks")`:
`(x0, y0, x1, y1, text, ...)`. -/
structure TextBlock where
  x0 : ℚ
  y0 : ℚ
  x1 : ℚ
  y1 : ℚ
  text : String
deriving DecidableEq

/-- Model of Python `round(x, 2)` (banker's rounding to two decimals). -/
def pyRound2 (q : ℚ) : ℚ :=
  let x := q * 100
  let f := x.floor
  let r := x - (f : ℚ)
  let n : ℤ :=
    if r < 1 / 2 then f
    else if 1 / 2 < r then f + 1
    else if Even f then f else f + 1
  (n : ℚ) / 100

/-- Block sort key of pdf_utils.py line 151:
`(round(b[1], 2), round(b[0], 2))` lexicographically. -/
def blockOrder (a b : TextBlock) : Prop :=
  pyRound2 a.y0 < pyRound2 b.y0 ∨
    (pyRound2 a.y0 = pyRound2 b.y0 ∧ pyRound2 a.x0 ≤ pyRound2 b.x0)

instance : DecidableRel blockOrder := fun a b => by
  unfold blockOrder; infer_instance

instance : IsTotal TextBlock blockOrder where
  total a b := by
    unfold blockOrder
    rcases lt_trichotomy (pyRound2 a.y0) (pyRound2 b.y0) with h | h | h
    · exact Or.inl (Or.inl h)
    · rcases le_total (pyRound2 a.x0) (pyRound2 b.x0) with h' | h'
      · exact Or.inl (Or.inr ⟨h, h'⟩)
      · exact Or.inr (Or.inr ⟨h.symm, h'⟩)
    · exact Or.inr (Or.inl h)

instance : IsTrans TextBlock blockOrder where
  trans a b c hab hbc := by
    unfold blockOrder at *
    rcases hab with h1 | ⟨h1, h1'⟩ <;> rcases hbc with h2 | ⟨h2, h2'⟩
    · exact Or.inl (h1.trans h2)
    · exact Or.inl (h2 ▸ h1)
    · exact Or.inl (h1 ▸ h2)
    · exact Or.inr ⟨h1.trans h2, h1'.trans h2'⟩

/-- `_direct_text_from_page` (pdf_utils.py lines 142–166): sort the page's
text blocks top-to-bottom then left-to-right on rounded coordinates, keep
the stripped nonempty block texts, join with newlines; if that is blank,
fall back to the page's plain linear extraction (itself stripped). -/
def direct_text_from_page (blocks : List TextBlock) (plainText : String) : String :=
  let sorted := blocks.insertionSort blockOrder
  let lines := sorted.filterMap fun b =>
    let t := pyStrip b.text
    if t = "" then none else some t
  let text := pyJoin "\n" lines
  if pyStrip text = "" then pyStrip plainText else text

/-- One page of a document the primary reader opened, together with the
external collaborators' behaviour on it: its direct-extractable text, its
raster at a given DPI, and the OCR engine's outcome for the first and the
retried OCR invocation. -/
structure Page where
  directText : String
  raster : ℕ → Img
  resp1 : Except String OcrResponse
  resp2 : Except String OcrResponse

/-- Caller configuration of `extract_all_pages_text`
(pdf_utils.py line 58). -/
structure Config where
  dpi : ℕ
  maxPages : ℕ
  forceOcr : Bool
  strongMode : Bool
deriving DecidableEq

/-- The per-page outcome, with the diagnostics the spec's data model calls
for: the final page text, which path produced it, the rasterization DPI of
the OCR fallback, and the strong flag of the first OCR attempt's
preprocessing. -/
structure PageResult where
  body : String
  viaOcr : Bool
  usedDpi : Option ℕ
  firstStrong : Option Bool
deriving DecidableEq

/-- OCR fallback of `extract_all_pages_text` (pdf_utils.py lines 98–122):
rasterize at `max(300, dpi)`; with strong-mode, preprocess with
`strong=True` and call `run_ocr` with `do_preprocess=False`; otherwise call
`run_ocr` (which preprocesses internally, choosing `runOcrStrongChoice`)
and, if the text is blank, retry once with strong preprocessing. -/
def ocrFallback (cfg : Config) (p : Page) : PageResult :=
  let useDpi := max 300 cfg.dpi
  let img := p.raster useDpi
  if cfg.strongMode then
    { body := run_ocr p.resp1
      viaOcr := true
      usedDpi := some useDpi
      firstStrong := some true }
  else
    let t1 := run_ocr p.resp1
    let body := if pyStrip t1 = "" then run_ocr p.resp2 else t1
    { body := body
      viaOcr := true
      usedDpi := some useDpi
      firstStrong := some (runOcrStrongChoice img) }

/-- Per-page decision of `extract_all_pages_text` (pdf_utils.py lines
87–122): unless OCR is forced, accept the direct text when it is nonempty,
its stripped length is at least 25, and the corruption heuristic passes;
otherwise enter the OCR fallback. -/
def processPage (cfg : Config) (p : Page) : PageResult :=
  if cfg.forceOcr then ocrFallback cfg p
  else if p.directText ≠ "" ∧ 25 ≤ (pyStrip p.directText).length then
    if looks_corrupted_text p.directText then ocrFallback cfg p
    else
      { body := pyStrip p.directText
        viaOcr := false
        usedDpi := none
        firstStrong := none }
  else ocrFallback cfg p

/-- Page marker of pdf_utils.py lines 93/128/130/134. -/
def pageMarker (idx : ℕ) : String := "=== СТРАНИЦА " ++ toString idx ++ " ==="

/-- Section emitted for one page (pdf_utils.py lines 93, 127–130): the
direct path appends its (stripped, nonempty) text right away; the OCR path
appends the page text only when it is not blank, else just the marker. -/
def sectionBody (r : PageResult) : String :=
  if r.viaOcr then (if pyStrip r.body = "" then "" else r.body) else r.body

/-- Section for the page at 1-based index `idx`; `none` stands for a page
whose processing raised, which the per-page handler (pdf_utils.py lines
132–134) turns into a bare marker. -/
def sectionFor (cfg : Config) (idx : ℕ) : Option Page → String
  | none => pageMarker idx ++ "\n"
  | some p => pageMarker idx ++ "\n" ++ sectionBody (processPage cfg p)

/-- The page loop of `extract_all_pages_text` (pdf_utils.py lines 82–136),
carrying the 1-based page index. -/
def pageSectionsAux (cfg : Config) (idx : ℕ) : List (Option Page) → List String
  | [] => []
  | p :: rest => sectionFor cfg idx p :: pageSectionsAux cfg (idx + 1) rest

/-- All page sections of a document the primary reader opened:
`total_pages = min(len(doc), max_pages)` pages, indices starting at 1. -/
def pageSections (cfg : Config) (doc : List (Option Page)) : List String :=
  pageSectionsAux cfg 1 (doc.take cfg.maxPages)

/-- `extract_all_pages_text` (pdf_utils.py lines 58–139) on a document the
primary reader opened: the page sections joined by blank lines. -/
def extract_all_pages_text (cfg : Config) (doc : List (Option Page)) : String :=
  pyJoin "\n\n" (pageSections cfg doc)

/-- `pdf_to_images` (pdf_utils.py lines 8–56): rasterize the first
`min(max_pages, 20)` pages at the given DPI and keep at most `max_pages`
of them (the poppler branch; the PyMuPDF branch rasterizes the same pages
at the same DPI). -/
def pdf_to_images (doc : List Page) (dpi maxPages : ℕ) : List Img :=
  ((doc.take (min maxPages 20)).map (fun p => p.raster dpi)).take maxPages

/-- The images OCR'd by `_extract_all_pages_text_via_ocr_only`
(pdf_utils.py line 174): `pdf_to_images(pdf_bytes, dpi=max(300, dpi), ...)`. -/
def viaOcrOnlyImages (doc : List Page) (dpi maxPages : ℕ) : List Img :=
  pdf_to_images doc (max 300 dpi) maxPages

/-! ### Claim-side definitions and concrete inputs -/

/-- Number of non-whitespace characters of a string (the quantity the
specification's 25-character acceptance threshold speaks about). -/
def nonWsCount (s : String) : ℕ := (s.data.filter (fun c => !(isPyWs c))).length

/-- Concatenation of the texts of a run of detections, with no inserted
space (claim-side companion of the word-merge). -/
def catTexts : List Box → String
  | [] => ""
  | b :: rest => b.text ++ catTexts rest

/-- Claim-side word decomposition: split a left-ordered detection list into
maximal runs whose consecutive horizontal gaps stay within
`0.7 * median height`; a gap above the threshold starts a new run. -/
def wordRuns (mh : ℚ) : List Box → List (List Box)
  | [] => []
  | [b] => [[b]]
  | a :: b :: rest =>
    match wordRuns mh (b :: rest) with
    | [] => [[a]]
    | r :: rs =>
      if b.left - a.right ≤ mh * (7 / 10) then (a :: r) :: rs
      else [a] :: r :: rs

/-- The line groups built by the sweep of `_group_boxes_to_lines`, before
word-merging (the "Lines" of the spec's data model). -/
def lineGroups (items : List RawItem) : List (List Box) :=
  match sortedBoxes items with
  | [] => []
  | b :: rest => groupLoop (groupTol items) [b] b.midY rest

/-- Arithmetic mean of a list of rationals. -/
def avg (l : List ℚ) : ℚ := l.sum / (l.length : ℚ)

/-- Default configuration: `dpi=300, max_pages=20`, no force-OCR, no
strong-mode. -/
def cfgDefault : Config := ⟨300, 20, false, false⟩

/-- Configuration with force-OCR requested. -/
def cfgForce : Config := ⟨300, 20, true, false⟩

/-- A page whose direct text has stripped length 26 but only 18
non-whitespace characters. -/
def pageInterior : Page :=
  ⟨"ab cd ef gh ij kl mn op qr", fun _ => ⟨100, 100⟩, .ok .empty, .ok .empty⟩

/-- A page for which every OCR engine interaction raises (the engine failed
to initialize). -/
def pageEngineDown : Page :=
  ⟨"", fun _ => ⟨100, 100⟩, .error "PaddleOCR failed to initialize",
    .error "PaddleOCR failed to initialize"⟩

/-- A page whose raster is large (2000×2000 pixels, above the 1800×1800
threshold of `run_ocr`'s internal preprocessing choice). -/
def pageBigRaster : Page :=
  ⟨"", fun _ => ⟨2000, 2000⟩, .ok .empty, .ok .empty⟩

/-- A legacy-format detection with confidence 0.1 (at most 0.5). -/
def lowConfItem : RawItem :=
  ⟨[(0, 0), (10, 0), (10, 10), (0, 10)], "HELLO", 1 / 10⟩

/-- Two detections forming two visually separate rows (vertical centers 5
and 105, median height 10, tolerance 8). -/
def rowItems : List RawItem :=
  [⟨[(0, 0), (10, 0), (10, 10), (0, 10)], "upper", 9 / 10⟩,
   ⟨[(0, 100), (10, 100), (10, 110), (0, 110)], "lower", 9 / 10⟩]

/-- Membership in the upper row, by vertical center. -/
def inUpperRow (b : Box) : Bool := decide (b.midY < 50)

/-- A two-page document whose second page raises during processing. -/
def docWitness : List (Option Page) := [some pageInterior, none]

/-! ### Helper lemmas -/

theorem half_le_div_iff {a b : ℕ} (hb : 0 < b) :
    ((1 : ℚ) / 2 ≤ (a : ℚ) / (b : ℚ)) ↔ b ≤ 2 * a := by
  rw [div_le_div_iff₀ (by norm_num) (by exact_mod_cast hb)]
  constructor
  · intro hq
    have : (b : ℚ) ≤ ((2 * a : ℕ) : ℚ) := by push_cast; linarith
    exact_mod_cast this
  · intro hq
    have : (b : ℚ) ≤ ((2 * a : ℕ) : ℚ) := by exact_mod_cast hq
    push_cast at this; linarith

theorem div_lt_fifth_iff {a b : ℕ} (hb : 0 < b) :
    ((a : ℚ) / (b : ℚ) < 1 / 5) ↔ 5 * a < b := by
  rw [div_lt_div_iff₀ (by exact_mod_cast hb) (by norm_num : (0 : ℚ) < 5)]
  constructor
  · intro hq
    have : ((5 * a : ℕ) : ℚ) < (b : ℚ) := by push_cast; linarith
    exact_mod_cast this
  · intro hq
    have : ((5 * a : ℕ) : ℚ) < (b : ℚ) := by exact_mod_cast hq
    push_cast at this; linarith

theorem div_lt_fiftieth_iff {a b : ℕ} (hb : 0 < b) :
    ((a : ℚ) / (b : ℚ) < 1 / 50) ↔ 50 * a < b := by
  rw [div_lt_div_iff₀ (by exact_mod_cast hb) (by norm_num : (0 : ℚ) < 50)]
  constructor
  · intro hq
    have : ((50 * a : ℕ) : ℚ) < (b : ℚ) := by push_cast; linarith
    exact_mod_cast this
  · intro hq
    have : ((50 * a : ℕ) : ℚ) < (b : ℚ) := by exact_mod_cast hq
    push_cast at this; linarith

theorem if_chain3 (c1 c2 c3 : Bool) :
    (if c1 then true else if c2 then true else if c3 then true else false) =
      (c1 || c2 || c3) := by
  cases c1 <;> cases c2 <;> cases c3 <;> rfl

/-! ### Claim C10 -/

/-- Claim C10: the corruption heuristic is total over all strings; on the
empty string it returns "looks corrupted" (`true`), and a page whose
direct-text candidate is empty always takes the OCR fallback. -/
theorem claim_C10 :
    looks_corrupted_text "" = true ∧
      ∀ (cfg : Config) (p : Page), p.directText = "" →
        (processPage cfg p).viaOcr = true := by
  constructor
  · rfl
  · intro cfg p hp
    have hocr : ∀ q, (ocrFallback cfg q).viaOcr = true := by
      intro q
      unfold ocrFallback
      split <;> rfl
    unfold processPage
    split_ifs with h1 h2 h3
    · exact hocr p
    · exact hocr p
    · exact absurd hp h2.1
    · exact hocr p

/-- Witness for C10 at a concrete page with empty direct text. -/
theorem claim_C10_witness :
    looks_corrupted_text "" = true ∧
      (processPage cfgForce pageEngineDown).viaOcr = true :=
  ⟨claim_C10.1, claim_C10.2 cfgForce pageEngineDown rfl⟩

/-! ### Claim C5 -/

/-- Claim C5: for a non-empty candidate, the corruption heuristic flags the
text if and only if one of the four stated conditions holds (length under 20
after newline removal; broken-glyph fraction among alphabetic characters at
least one half; distinct/total character ratio below 0.20 with an alphabetic
character present; a domain keyword present while the Cyrillic proportion is
below 0.02). -/
theorem claim_C5 (text : String) (h : text ≠ "") :
    looks_corrupted_text text = true ↔ corruptionClaimSpec text := by
  unfold looks_corrupted_text corruptionClaimSpec
  rw [if_neg h]
  set s : List Char := text.data.filter (fun c => c ≠ '\n') with hsdef
  set letters : List Char := s.filter pyIsAlpha with hldef
  set bad : ℕ := (letters.filter (fun c => brokenGlyphs.contains c)).length with hbdef
  by_cases hlen : s.length < 20
  · simp [hlen]
  · rw [if_neg hlen]
    have hn : 0 < s.length := by omega
    rw [if_chain3]
    simp only [Bool.or_eq_true, Bool.and_eq_true, decide_eq_true_eq, bne_iff_ne,
      ne_eq, List.any_eq_true]
    have e1 : ((if letters.length = 0 then false
          else decide (letters.length ≤ 2 * bad)) = true) ↔
        (letters ≠ [] ∧ (1 : ℚ) / 2 ≤ (bad : ℚ) / (letters.length : ℚ)) := by
      by_cases hl0 : letters.length = 0
      · simp [hl0, List.length_eq_zero.mp hl0]
      · rw [if_neg hl0]
        have hlp : 0 < letters.length := Nat.pos_of_ne_zero hl0
        simp only [decide_eq_true_eq, half_le_div_iff hlp]
        constructor
        · intro hle; exact ⟨by simpa [← List.length_eq_zero] using hl0, hle⟩
        · exact fun hx => hx.2
    rw [e1]
    constructor
    · rintro ((hb | ⟨hu, hl0⟩) | ⟨hkw, hc⟩)
      · exact Or.inr (Or.inl hb)
      · refine Or.inr (Or.inr (Or.inl ⟨?_, ?_⟩))
        · exact (div_lt_fifth_iff hn).mpr hu
        · simpa [← List.length_eq_zero] using hl0
      · refine Or.inr (Or.inr (Or.inr ⟨hkw, ?_⟩))
        exact (div_lt_fiftieth_iff hn).mpr hc
    · rintro (hl | hb | ⟨hu, hl0⟩ | ⟨hkw, hc⟩)
      · omega
      · exact Or.inl (Or.inl hb)
      · refine Or.inl (Or.inr ⟨(div_lt_fifth_iff hn).mp hu, ?_⟩)
        simpa [← List.length_eq_zero] using hl0
      · exact Or.inr ⟨hkw, (div_lt_fiftieth_iff hn).mp hc⟩

/-- Witness for C5 at a concrete corrupted text (broken-glyph dominated). -/
theorem claim_C5_witness :
    ("IIIIIIIIIIllllllllll llll" ≠ "") ∧
      (looks_corrupted_text "IIIIIIIIIIllllllllll llll" = true ↔
        corruptionClaimSpec "IIIIIIIIIIllllllllll llll") :=
  ⟨by decide, claim_C5 "IIIIIIIIIIllllllllll llll" (by decide)⟩

/-! ### Strip-invariance of the direct-text extractor -/

theorem string_data_append (a b : String) : (a ++ b).data = a.data ++ b.data := rfl

theorem string_data_ne {s : String} (h : s ≠ "") : s.data ≠ [] := by
  intro hd
  apply h
  obtain ⟨data⟩ := s
  subst hd
  decide

theorem head?_dropWhile_not {l : List Char} {c : Char}
    (h : (l.dropWhile isPyWs).head? = some c) : isPyWs c = false := by
  induction l with
  | nil => simp [List.dropWhile] at h
  | cons a l ih =>
    rw [List.dropWhile_cons] at h
    by_cases ha : isPyWs a
    · rw [if_pos ha] at h; exact ih h
    · rw [if_neg ha] at h
      simp only [List.head?_cons, Option.some.injEq] at h
      subst h
      exact Bool.eq_false_iff.mpr ha

theorem dropWhile_eq_self_of_head {l : List Char}
    (h : ∀ c, l.head? = some c → isPyWs c = false) :
    l.dropWhile isPyWs = l := by
  cases l with
  | nil => rfl
  | cons a l =>
    have := h a rfl
    simp [List.dropWhile_cons, this]

theorem prefix_head?_eq {l₁ l₂ : List Char} {c : Char} (hp : l₁ <+: l₂)
    (h : l₁.head? = some c) : l₂.head? = some c := by
  obtain ⟨t, rfl⟩ := hp
  rw [List.head?_append, h]
  rfl

theorem trimChars_front_of_dropWhile (l : List Char) : trimChars l <+: l.dropWhile isPyWs := by
  unfold trimChars
  have h1 := List.dropWhile_suffix (l := (l.dropWhile isPyWs).reverse) isPyWs
  have h2 := List.reverse_prefix.mpr h1
  rwa [List.reverse_reverse] at h2

theorem trimChars_head {l : List Char} {c : Char}
    (h : (trimChars l).head? = some c) : isPyWs c = false :=
  head?_dropWhile_not (prefix_head?_eq (trimChars_front_of_dropWhile l) h)

theorem trimChars_getLast {l : List Char} {c : Char}
    (h : (trimChars l).getLast? = some c) : isPyWs c = false := by
  unfold trimChars at h
  rw [List.getLast?_reverse] at h
  exact head?_dropWhile_not h

theorem trimChars_eq_self {l : List Char}
    (h1 : ∀ c, l.head? = some c → isPyWs c = false)
    (h2 : ∀ c, l.getLast? = some c → isPyWs c = false) :
    trimChars l = l := by
  unfold trimChars
  rw [dropWhile_eq_self_of_head h1, dropWhile_eq_self_of_head, List.reverse_reverse]
  intro c hc
  rw [List.head?_reverse] at hc
  exact h2 c hc

theorem trimChars_idem (l : List Char) : trimChars (trimChars l) = trimChars l :=
  trimChars_eq_self (fun _ h => trimChars_head h) (fun _ h => trimChars_getLast h)

theorem pyStrip_idem (s : String) : pyStrip (pyStrip s) = pyStrip s :=
  congrArg String.mk (trimChars_idem s.data)

theorem pyJoin_data_ne {lines : List String} (hne : lines ≠ [])
    (h : ∀ e ∈ lines, e ≠ "") : (pyJoin "\n" lines).data ≠ [] := by
  induction lines with
  | nil => cases hne rfl
  | cons e rest ih =>
    cases rest with
    | nil => exact string_data_ne (h e (by simp))
    | cons e' rest' =>
      have he := string_data_ne (h e (by simp))
      show ((e ++ "\n") ++ pyJoin "\n" (e' :: rest')).data ≠ []
      rw [string_data_append, string_data_append]
      simp [he]

theorem pyJoin_ends {lines : List String} (hne : lines ≠ [])
    (hok : ∀ e ∈ lines, e ≠ "" ∧
      (∀ c, e.data.head? = some c → isPyWs c = false) ∧
      (∀ c, e.data.getLast? = some c → isPyWs c = false)) :
    (∀ c, (pyJoin "\n" lines).data.head? = some c → isPyWs c = false) ∧
      (∀ c, (pyJoin "\n" lines).data.getLast? = some c → isPyWs c = false) := by
  induction lines with
  | nil => cases hne rfl
  | cons e rest ih =>
    cases rest with
    | nil => exact ⟨(hok e (by simp)).2.1, (hok e (by simp)).2.2⟩
    | cons e' rest' =>
      have ihr := ih (by simp) (fun x hx => hok x (by simp [hx]))
      have hednil := string_data_ne (hok e (by simp)).1
      have hjnil : (pyJoin "\n" (e' :: rest')).data ≠ [] :=
        pyJoin_data_ne (by simp) (fun x hx => (hok x (by simp [hx])).1)
      constructor
      · intro c hc
        have : ((e ++ "\n") ++ pyJoin "\n" (e' :: rest')).data.head? = some c := hc
        rw [string_data_append, string_data_append, List.head?_append,
          List.head?_append] at this
        obtain ⟨a, t, hat⟩ := List.exists_cons_of_ne_nil hednil
        rw [hat] at this
        simp only [List.head?_cons, Option.or_some] at this
        apply (hok e (by simp)).2.1 c
        rw [hat]
        simpa using this
      · intro c hc
        have : ((e ++ "\n") ++ pyJoin "\n" (e' :: rest')).data.getLast? = some c := hc
        rw [string_data_append, string_data_append, List.getLast?_append] at this
        obtain ⟨a, t, hat⟩ := List.exists_cons_of_ne_nil hjnil
        rw [hat] at this
        have hsome : (a :: t).getLast? = some ((a :: t).getLast (by simp)) := by
          simp [List.getLast?_eq_getLast]
        rw [hsome] at this
        apply ihr.2 c
        rw [hat, hsome]
        simpa using this

theorem direct_text_strip_self (blocks : List TextBlock) (plain : String) :
    pyStrip (direct_text_from_page blocks plain) = direct_text_from_page blocks plain := by
  simp only [direct_text_from_page]
  set lines : List String :=
    (blocks.insertionSort blockOrder).filterMap (fun b =>
      let t := pyStrip b.text
      if t = "" then none else some t) with hldef
  by_cases hb : pyStrip (pyJoin "\n" lines) = ""
  · rw [if_pos hb]
    exact pyStrip_idem plain
  · rw [if_neg hb]
    have hlinesne : lines ≠ [] := by
      intro h0
      apply hb
      rw [h0]
      rfl
    have hok : ∀ e ∈ lines, e ≠ "" ∧
        (∀ c, e.data.head? = some c → isPyWs c = false) ∧
        (∀ c, e.data.getLast? = some c → isPyWs c = false) := by
      intro e he
      rw [hldef] at he
      obtain ⟨b, hbmem, hbe⟩ := List.mem_filterMap.mp he
      simp only [] at hbe
      by_cases h0 : pyStrip b.text = ""
      · rw [if_pos h0] at hbe; cases hbe
      · rw [if_neg h0] at hbe
        obtain rfl := Option.some.inj hbe
        exact ⟨h0, fun c hc => trimChars_head hc, fun c hc => trimChars_getLast hc⟩
    obtain ⟨hh, hl2⟩ := pyJoin_ends hlinesne hok
    show pyStrip (pyJoin "\n" lines) = pyJoin "\n" lines
    unfold pyStrip
    rw [trimChars_eq_self hh hl2]

/-! ### Claim C1 -/

theorem ocrFallback_viaOcr (cfg : Config) (p : Page) :
    (ocrFallback cfg p).viaOcr = true := by
  unfold ocrFallback
  split <;> rfl

/-- Counterexample to C1 as stated: with default configuration (no
force-OCR), a page whose direct text has only 18 non-whitespace characters
(below the claimed 25) is nevertheless accepted on the direct path, because
the code thresholds `len(direct_text.strip())`, which counts interior
whitespace. -/
theorem claim_C1_counterexample :
    cfgDefault.forceOcr = false ∧
      (processPage cfgDefault pageInterior).viaOcr = false ∧
      (processPage cfgDefault pageInterior).body = pyStrip pageInterior.directText ∧
      nonWsCount pageInterior.directText < 25 := by
  refine ⟨rfl, by decide, by decide, by decide⟩

/-- Claim C1 (amended): without force-OCR, a page's direct-text result is
terminal (no OCR) if and only if the direct text is nonempty, its length
after stripping leading and trailing whitespace is at least 25, and the
corruption heuristic passes; on acceptance the emitted body is the stripped
direct text, which equals the Direct-Text Extractor's output verbatim
because that output is invariant under stripping. -/
theorem claim_C1 (cfg : Config) (p : Page) (hf : cfg.forceOcr = false) :
    ((processPage cfg p).viaOcr = false ↔
      (p.directText ≠ "" ∧ 25 ≤ (pyStrip p.directText).length ∧
        looks_corrupted_text p.directText = false)) ∧
      ((processPage cfg p).viaOcr = false →
        (processPage cfg p).body = pyStrip p.directText) ∧
      (∀ (blocks : List TextBlock) (plain : String),
        p.directText = direct_text_from_page blocks plain →
        (processPage cfg p).viaOcr = false →
        (processPage cfg p).body = p.directText) := by
  unfold processPage
  rw [hf]
  simp only [Bool.false_eq_true, if_false]
  split_ifs with h2 h3
  · -- direct text long enough but corrupted: OCR fallback
    refine ⟨?_, ?_, ?_⟩
    · rw [ocrFallback_viaOcr]
      simp [h3]
    · intro hco; rw [ocrFallback_viaOcr] at hco; cases hco
    · intro _ _ _ hco; rw [ocrFallback_viaOcr] at hco; cases hco
  · -- accepted
    refine ⟨?_, ?_, ?_⟩
    · simp only [true_iff]
      exact ⟨h2.1, h2.2, Bool.eq_false_iff.mpr h3⟩
    · intro _; rfl
    · intro blocks plain heq _
      show pyStrip p.directText = p.directText
      rw [heq]
      exact direct_text_strip_self blocks plain
  · -- direct text empty or too short: OCR fallback
    refine ⟨?_, ?_, ?_⟩
    · rw [ocrFallback_viaOcr]
      constructor
      · intro hco; cases hco
      · rintro ⟨ha, hb, -⟩; exact absurd ⟨ha, hb⟩ h2
    · intro hco; rw [ocrFallback_viaOcr] at hco; cases hco
    · intro _ _ _ hco; rw [ocrFallback_viaOcr] at hco; cases hco

/-- Witness for C1 (amended) at the concrete interior-whitespace page. -/
theorem claim_C1_witness :
    (processPage cfgDefault pageInterior).viaOcr = false ↔
      (pageInterior.directText ≠ "" ∧
        25 ≤ (pyStrip pageInterior.directText).length ∧
        looks_corrupted_text pageInterior.directText = false) :=
  (claim_C1 cfgDefault pageInterior rfl).1

/-! ### Claim C2 -/

/-- Counterexample to C2 as stated: an engine-initialization failure is not
surfaced to the caller; `run_ocr` converts it into an empty string and the
pipeline returns normally with an empty page body. -/
theorem claim_C2_counterexample :
    run_ocr (Except.error "PaddleOCR failed to initialize") = "" ∧
      extract_all_pages_text cfgForce [some pageEngineDown] =
        pageMarker 1 ++ "\n" := by
  exact ⟨rfl, by decide⟩

/-- Claim C2 (amended): an OCR-engine initialization failure is caught by
`run_ocr`'s catch-all exception handler and converted into an empty string,
so a page whose engine interactions all fail ends with an empty body and
processing continues; the failure is not propagated to the caller. -/
theorem claim_C2 :
    (∀ e, run_ocr (Except.error e) = "") ∧
      (∀ (cfg : Config) (p : Page) (e₁ e₂ : String),
        p.resp1 = Except.error e₁ → p.resp2 = Except.error e₂ →
        (processPage cfg p).viaOcr = true →
        (processPage cfg p).body = "") := by
  constructor
  · intro e; rfl
  · intro cfg p e₁ e₂ h1 h2 hocr
    have hrun1 : run_ocr p.resp1 = "" := by rw [h1]; rfl
    have hrun2 : run_ocr p.resp2 = "" := by rw [h2]; rfl
    have hocrbody : ∀ cfg' : Config, (ocrFallback cfg' p).body = "" := by
      intro cfg'
      unfold ocrFallback
      split
      · exact hrun1
      · simp only [hrun1, hrun2]
        rfl
    unfold processPage at hocr ⊢
    split_ifs at hocr ⊢ with ha hb hc
    · exact hocrbody cfg
    · exact hocrbody cfg
    · exact hocrbody cfg

/-- Witness for C2 (amended) at a concrete engine-down page. -/
theorem claim_C2_witness :
    (processPage cfgForce pageEngineDown).body = "" :=
  claim_C2.2 cfgForce pageEngineDown "PaddleOCR failed to initialize"
    "PaddleOCR failed to initialize" rfl rfl (by decide)

/-! ### Claim C3 -/

/-- Counterexample to C3 as stated: in the legacy response shape, a
detection with confidence 0.1 (at most 0.5) still contributes its text to
the assembled output. -/
theorem claim_C3_counterexample :
    lowConfItem.conf ≤ 1 / 2 ∧
      run_ocr (Except.ok (OcrResponse.legacy [lowConfItem])) = "HELLO" := by
  exact ⟨by norm_num [lowConfItem], by decide⟩

theorem group_boxes_congr {items items' : List RawItem}
    (h : items.map mkBox = items'.map mkBox) :
    group_boxes_to_lines items = group_boxes_to_lines items' := by
  simp only [group_boxes_to_lines, groupTol, groupMedianH, sortedBoxes, h]

/-- Claim C3 (amended): only the structured parallel-array response filters
detections by confidence strictly above 0.5; the legacy tuple path ignores
confidence entirely (its output is invariant under arbitrary rewrites of
every item's confidence). -/
theorem claim_C3 :
    (∀ (ts : List String) (ss : List ℚ) (t : String),
        t ∈ structuredLines ts ss →
        ∃ i, ts.get? i = some t ∧ 1 / 2 < ss.getD i 0) ∧
      (∀ (items : List RawItem) (f : RawItem → ℚ),
        parse_old_format (items.map (fun it => { it with conf := f it })) =
          parse_old_format items) := by
  constructor
  · intro ts
    induction ts with
    | nil => intro ss t ht; cases ht
    | cons t0 ts ih =>
      intro ss t ht
      cases ss with
      | nil => cases ht
      | cons c cs =>
        by_cases hc : (1 : ℚ) / 2 < c
        · rw [structuredLines, if_pos hc] at ht
          rcases List.mem_cons.mp ht with rfl | hmem
          · exact ⟨0, rfl, hc⟩
          · obtain ⟨i, hti, hci⟩ := ih cs t hmem
            exact ⟨i + 1, hti, hci⟩
        · rw [structuredLines, if_neg hc] at ht
          obtain ⟨i, hti, hci⟩ := ih cs t ht
          exact ⟨i + 1, hti, hci⟩
  · intro items f
    have hmk : (items.map (fun it => { it with conf := f it })).map mkBox =
        items.map mkBox := by
      rw [List.map_map]; rfl
    have htext : (items.map (fun it => { it with conf := f it })).map RawItem.text =
        items.map RawItem.text := by
      rw [List.map_map]; rfl
    have hany : (items.map (fun it => { it with conf := f it })).any
        (fun it => it.box.isEmpty) = items.any (fun it => it.box.isEmpty) := by
      rw [List.any_map]; rfl
    have hemp : (items.map (fun it => { it with conf := f it })).isEmpty =
        items.isEmpty := by
      cases items <;> rfl
    unfold parse_old_format
    rw [group_boxes_congr hmk, hany, hemp, htext]

/-- Witness for C3 (amended): a structured-path survivor really has a score
above 0.5. -/
theorem claim_C3_witness :
    ∃ i, (["ok"] : List String).get? i = some "ok" ∧
      (1 : ℚ) / 2 < ([9 / 10] : List ℚ).getD i 0 :=
  claim_C3.1 ["ok"] [9 / 10] "ok" (by
    show "ok" ∈ structuredLines ["ok"] [9 / 10]
    rw [structuredLines, if_pos (by norm_num)]
    exact List.mem_cons_self _ _)

/-! ### Claim C4 -/

theorem ocrFallback_firstStrong (cfg : Config) (p : Page) :
    (ocrFallback cfg p).firstStrong =
      some (cfg.strongMode || runOcrStrongChoice (p.raster (max 300 cfg.dpi))) := by
  unfold ocrFallback
  split
  · rename_i hs; simp [hs]
  · rename_i hs
    simp only [Bool.not_eq_true] at hs
    simp [hs]

/-- Counterexample to C4 as stated: with strong-mode off, the first OCR
attempt on a 2000×2000 raster is preprocessed with `strong=True`, because
`run_ocr`'s internal preprocessing turns strong on for images above
1800×1800 pixels. -/
theorem claim_C4_counterexample :
    cfgForce.strongMode = false ∧
      (processPage cfgForce pageBigRaster).firstStrong = some true := by
  exact ⟨rfl, by decide⟩

/-- Claim C4 (amended): whenever the orchestrator performs the first OCR
attempt on a page, the preprocessing is applied with
`strong = strong-mode OR (raster area > 1800*1800)`: the caller's flag
forces strong preprocessing, and otherwise `run_ocr`'s internal choice by
image area decides. -/
theorem claim_C4 (cfg : Config) (p : Page) (s : Bool)
    (h : (processPage cfg p).firstStrong = some s) :
    s = (cfg.strongMode || runOcrStrongChoice (p.raster (max 300 cfg.dpi))) := by
  unfold processPage at h
  split_ifs at h <;>
    · rw [ocrFallback_firstStrong] at h
      simp only [Option.some.injEq] at h
      first
        | exact h
        | exact h.symm

/-- Witness for C4 (amended) at the concrete big-raster page. -/
theorem claim_C4_witness :
    true = (cfgForce.strongMode ||
      runOcrStrongChoice (pageBigRaster.raster (max 300 cfgForce.dpi))) :=
  claim_C4 cfgForce pageBigRaster true (by decide)

/-! ### Claim C6 -/

theorem ocrFallback_usedDpi (cfg : Config) (p : Page) :
    (ocrFallback cfg p).usedDpi = some (max 300 cfg.dpi) := by
  unfold ocrFallback
  split <;> rfl

/-- Claim C6: every page that enters the page-level OCR fallback is
rasterized at effective DPI `max(configured, 300)`, hence at least 300; and
every image rasterized by the document-level OCR-only fallback path comes
from a page rasterized at `max(configured, 300)` as well. -/
theorem claim_C6 :
    (∀ (cfg : Config) (p : Page) (d : ℕ),
        (processPage cfg p).usedDpi = some d →
        d = max 300 cfg.dpi ∧ 300 ≤ d) ∧
      (∀ (doc : List Page) (dpi maxPages : ℕ) (img : Img),
        img ∈ viaOcrOnlyImages doc dpi maxPages →
        300 ≤ max 300 dpi ∧ ∃ p ∈ doc, img = p.raster (max 300 dpi)) := by
  constructor
  · intro cfg p d h
    have hd : d = max 300 cfg.dpi := by
      unfold processPage at h
      split_ifs at h <;>
        · rw [ocrFallback_usedDpi] at h
          simp only [Option.some.injEq] at h
          exact h.symm
    exact ⟨hd, hd ▸ le_max_left 300 cfg.dpi⟩
  · intro doc dpi maxPages img h
    refine ⟨le_max_left 300 dpi, ?_⟩
    unfold viaOcrOnlyImages pdf_to_images at h
    have h1 := List.mem_of_mem_take h
    obtain ⟨p, hp, rfl⟩ := List.mem_map.mp h1
    exact ⟨p, List.mem_of_mem_take hp, rfl⟩

/-- Witness for C6 at concrete inputs (page-level fallback at configured
DPI 300; document-level fallback at configured DPI 72). -/
theorem claim_C6_witness :
    (300 = max 300 cfgForce.dpi ∧ 300 ≤ 300) ∧
      (300 ≤ max 300 72 ∧
        ∃ p ∈ [pageBigRaster], (⟨2000, 2000⟩ : Img) = p.raster (max 300 72)) :=
  ⟨claim_C6.1 cfgForce pageEngineDown 300 (by decide),
    claim_C6.2 [pageBigRaster] 72 5 ⟨2000, 2000⟩ (by decide)⟩

/-! ### Claim C7 -/

theorem string_append_empty (s : String) : s ++ "" = s := by
  obtain ⟨d⟩ := s
  show String.mk (d ++ []) = String.mk d
  rw [List.append_nil]

theorem pageSectionsAux_length (cfg : Config) :
    ∀ (l : List (Option Page)) (k : ℕ), (pageSectionsAux cfg k l).length = l.length := by
  intro l
  induction l with
  | nil => intro k; rfl
  | cons p rest ih =>
    intro k
    show (sectionFor cfg k p :: pageSectionsAux cfg (k + 1) rest).length = _
    rw [List.length_cons, ih (k + 1), List.length_cons]

theorem pageSectionsAux_get? (cfg : Config) :
    ∀ (l : List (Option Page)) (k j : ℕ),
      (pageSectionsAux cfg k l).get? j =
        (l.get? j).map (fun p? => sectionFor cfg (k + j) p?) := by
  intro l
  induction l with
  | nil => intro k j; rfl
  | cons p rest ih =>
    intro k j
    cases j with
    | zero => rfl
    | succ j' =>
      show (pageSectionsAux cfg (k + 1) rest).get? j' = _
      rw [ih (k + 1) j']
      have : k + 1 + j' = k + (j' + 1) := by omega
      rw [this]
      rfl

theorem sectionFor_shape (cfg : Config) (idx : ℕ) (p? : Option Page) :
    ∃ body, sectionFor cfg idx p? = pageMarker idx ++ "\n" ++ body ∧
      (p? = none → body = "") := by
  cases p? with
  | none =>
    refine ⟨"", ?_, fun _ => rfl⟩
    show pageMarker idx ++ "\n" = (pageMarker idx ++ "\n") ++ ""
    rw [string_append_empty]
  | some p =>
    exact ⟨sectionBody (processPage cfg p), rfl, fun h => by cases h⟩

/-- Claim C7: for a document the primary reader can open, the output is the
page sections joined by blank lines; there are exactly
`min(page count, max_pages)` sections; each section at position `j` is the
fixed marker with 1-based index `j+1` followed by a body; a page whose
processing raised contributes the bare marker with an empty body; and each
section depends only on its own page, so one bad page never affects the
remaining pages. -/
theorem claim_C7 (cfg : Config) (doc : List (Option Page)) :
    extract_all_pages_text cfg doc = pyJoin "\n\n" (pageSections cfg doc) ∧
      (pageSections cfg doc).length = min doc.length cfg.maxPages ∧
      (∀ (j : ℕ) (p? : Option Page), (doc.take cfg.maxPages).get? j = some p? →
        ∃ body, (pageSections cfg doc).get? j =
            some (pageMarker (j + 1) ++ "\n" ++ body) ∧
          (p? = none → body = "")) ∧
      (∀ j : ℕ, (pageSections cfg doc).get? j =
        ((doc.take cfg.maxPages).get? j).map (fun p? => sectionFor cfg (1 + j) p?)) := by
  refine ⟨rfl, ?_, ?_, ?_⟩
  · unfold pageSections
    rw [pageSectionsAux_length, List.length_take]
    exact Nat.min_comm _ _
  · intro j p? hj
    unfold pageSections
    rw [pageSectionsAux_get? cfg _ 1 j, hj]
    obtain ⟨body, hb, hbe⟩ := sectionFor_shape cfg (1 + j) p?
    refine ⟨body, ?_, hbe⟩
    rw [Option.map_some', hb]
    have : 1 + j = j + 1 := Nat.add_comm 1 j
    rw [this]
  · intro j
    exact pageSectionsAux_get? cfg _ 1 j

/-- Witness for C7 at a concrete two-page document whose second page
raises. -/
theorem claim_C7_witness :
    ∃ body, (pageSections cfgDefault docWitness).get? 1 =
        some (pageMarker 2 ++ "\n" ++ body) ∧
      ((none : Option Page) = none → body = "") :=
  (claim_C7 cfgDefault docWitness).2.2.1 1 none rfl

/-! ### Claim C8 -/

theorem wordRuns_shape (mh : ℚ) :
    ∀ (l : List Box) (b : Box),
      ∃ tl rs, wordRuns mh (b :: l) = (b :: tl) :: rs := by
  intro l
  induction l with
  | nil => intro b; exact ⟨[], [], rfl⟩
  | cons a rest ih =>
    intro b
    obtain ⟨tl', rs', hshape⟩ := ih a
    by_cases hgap : a.left - b.right ≤ mh * (7 / 10)
    · refine ⟨a :: tl', rs', ?_⟩
      rw [wordRuns, hshape]
      show (if a.left - b.right ≤ mh * (7 / 10)
          then (b :: a :: tl') :: rs'
          else [b] :: (a :: tl') :: rs') = (b :: a :: tl') :: rs'
      rw [if_pos hgap]
    · refine ⟨[], (a :: tl') :: rs', ?_⟩
      rw [wordRuns, hshape]
      show (if a.left - b.right ≤ mh * (7 / 10)
          then (b :: a :: tl') :: rs'
          else [b] :: (a :: tl') :: rs') = [b] :: (a :: tl') :: rs'
      rw [if_neg hgap]

theorem mergeLoop_eq (mh : ℚ) :
    ∀ (l : List Box) (prev : Box) (w : String) (tl : List Box)
      (rs : List (List Box)),
      wordRuns mh (prev :: l) = (prev :: tl) :: rs →
      mergeLoop mh w prev l = (w ++ catTexts tl) :: rs.map catTexts := by
  intro l
  induction l with
  | nil =>
    intro prev w tl rs h
    rw [wordRuns] at h
    injection h with h1 h2
    injection h1 with _ h1'
    subst h1'
    subst h2
    show [w] = (w ++ catTexts []) :: List.map catTexts []
    rw [catTexts, string_append_empty]
    rfl
  | cons b rest ih =>
    intro prev w tl rs h
    obtain ⟨tl', rs', hshape⟩ := wordRuns_shape mh rest b
    rw [wordRuns, hshape] at h
    replace h : (if b.left - prev.right ≤ mh * (7 / 10)
        then (prev :: b :: tl') :: rs'
        else [prev] :: (b :: tl') :: rs') = (prev :: tl) :: rs := h
    rw [mergeLoop]
    by_cases hgap : b.left - prev.right ≤ mh * (7 / 10)
    · rw [if_neg (not_lt.mpr hgap)]
      rw [if_pos hgap] at h
      injection h with h1 h2
      injection h1 with _ h1'
      subst h1'
      subst h2
      rw [ih b (w ++ b.text) tl' rs' hshape]
      show ((w ++ b.text) ++ catTexts tl') :: _ = (w ++ (b.text ++ catTexts tl')) :: _
      rw [String.append_assoc]
    · rw [if_pos (not_le.mp hgap)]
      rw [if_neg hgap] at h
      injection h with h1 h2
      injection h1 with _ h1'
      subst h1'
      subst h2
      rw [ih b b.text tl' rs' hshape]
      show w :: (b.text ++ catTexts tl') :: _ =
        (w ++ catTexts []) :: List.map catTexts ((b :: tl') :: rs')
      rw [catTexts, string_append_empty, List.map_cons]
      rfl

/-- Claim C8: word reconstruction within a line equals the claim-side
decomposition — order the detections by left edge, split into maximal runs
at horizontal gaps exceeding 70 percent of the median detection height,
concatenate each run's texts with no inserted space, and join the resulting
words with single spaces. -/
theorem claim_C8 (boxes : List Box) (mh : ℚ) :
    merge_boxes_into_words boxes mh =
      pyJoin " " ((wordRuns mh (boxes.insertionSort byLeft)).map catTexts) := by
  unfold merge_boxes_into_words
  cases hs : boxes.insertionSort byLeft with
  | nil => rfl
  | cons b rest =>
    obtain ⟨tl, rs, hshape⟩ := wordRuns_shape mh rest b
    show pyJoin " " (mergeLoop mh b.text b rest) =
      pyJoin " " ((wordRuns mh (b :: rest)).map catTexts)
    rw [hshape, mergeLoop_eq mh rest b b.text tl rs hshape, List.map_cons]
    show pyJoin " " ((b.text ++ catTexts tl) :: _) =
      pyJoin " " ((b.text ++ catTexts tl) :: _)
    rfl

/-! ### Claim C9: lemmas about the line-grouping sweep -/

theorem sum_lt_mul_length {l : List ℚ} {c : ℚ} (hne : l ≠ []) (h : ∀ x ∈ l, x < c) :
    l.sum < c * (l.length : ℚ) := by
  induction l with
  | nil => cases hne rfl
  | cons x xs ih =>
    cases xs with
    | nil => simpa using h x (by simp)
    | cons y ys =>
      have hx := h x (by simp)
      have hxs := ih (by simp) (fun z hz => h z (by simp [hz]))
      rw [List.sum_cons, List.length_cons]
      push_cast
      push_cast at hxs
      linarith

theorem avg_lt {l : List ℚ} {c : ℚ} (hne : l ≠ []) (h : ∀ x ∈ l, x < c) :
    avg l < c := by
  unfold avg
  have hlen : (0 : ℚ) < (l.length : ℚ) := by
    exact_mod_cast List.length_pos.mpr hne
  rw [div_lt_iff₀ hlen]
  exact sum_lt_mul_length hne h

theorem avg_append_singleton {l : List ℚ} (hne : l ≠ []) (y : ℚ) :
    (avg l * (l.length : ℚ) + y) / ((l.length : ℚ) + 1) = avg (l ++ [y]) := by
  unfold avg
  have hlen : (l.length : ℚ) ≠ 0 := by
    have : 0 < l.length := List.length_pos.mpr hne
    exact_mod_cast this.ne'
  rw [List.sum_append, List.length_append]
  push_cast
  rw [div_mul_cancel₀ _ hlen]
  norm_num

theorem groupLoop_join (tol : ℚ) :
    ∀ (l current : List Box) (curY : ℚ),
      (groupLoop tol current curY l).flatten = current ++ l := by
  intro l
  induction l with
  | nil =>
    intro current curY
    show (groupLoop tol current curY []).flatten = _
    rw [groupLoop]
    simp
  | cons b rest ih =>
    intro current curY
    rw [groupLoop]
    by_cases hjoin : |b.midY - curY| ≤ tol
    · rw [if_pos hjoin, ih]
      simp
    · rw [if_neg hjoin]
      show (current :: groupLoop tol [b] b.midY rest).flatten = current ++ b :: rest
      rw [List.flatten_cons, ih]
      simp

theorem sweepLines_eq (tol mh : ℚ) :
    ∀ (l current : List Box) (curY : ℚ),
      sweepLines tol mh current curY l =
        (groupLoop tol current curY l).map
          (fun g => merge_boxes_into_words g mh) := by
  intro l
  induction l with
  | nil => intro current curY; rfl
  | cons b rest ih =>
    intro current curY
    rw [sweepLines, groupLoop]
    by_cases hjoin : |b.midY - curY| ≤ tol
    · rw [if_pos hjoin, if_pos hjoin, ih]
    · rw [if_neg hjoin, if_neg hjoin, ih, List.map_cons]

theorem two_mem_le_length {α : Type} {l : List α} {a b : α}
    (ha : a ∈ l) (hb : b ∈ l) (hne : a ≠ b) : 2 ≤ l.length := by
  cases l with
  | nil => cases ha
  | cons x xs =>
    cases xs with
    | nil =>
      simp only [List.mem_singleton] at ha hb
      exact absurd (ha.trans hb.symm) hne
    | cons y ys => simp only [List.length_cons]; omega

/-- Homogeneity of the line-grouping sweep: if the detections are ordered
by vertical center, the current group is row-homogeneous and its running
`curY` is the mean of its members' centers, and any two detections of
different rows are separated by more than the tolerance, then every group
the sweep produces is row-homogeneous. -/
theorem groupLoop_homog (tol : ℚ) (P : Box → Bool) :
    ∀ (l current : List Box) (curY : ℚ),
      current ≠ [] →
      curY = avg (current.map Box.midY) →
      List.Pairwise (fun a b => a.midY ≤ b.midY) (current ++ l) →
      (∀ a ∈ current ++ l, ∀ b ∈ current ++ l, P a ≠ P b →
        tol < |a.midY - b.midY|) →
      (∀ a ∈ current, ∀ b ∈ current, P a = P b) →
      ∀ g ∈ groupLoop tol current curY l, ∀ a ∈ g, ∀ b ∈ g, P a = P b := by
  intro l
  induction l with
  | nil =>
    intro current curY hne havg hpair hsep hhom g hg a ha b hb
    rw [groupLoop] at hg
    rw [List.mem_singleton] at hg
    subst hg
    exact hhom a ha b hb
  | cons bx rest ih =>
    intro current curY hne havg hpair hsep hhom
    rw [groupLoop]
    by_cases hjoin : |bx.midY - curY| ≤ tol
    · rw [if_pos hjoin]
      have hsame : ∀ x ∈ current, P x = P bx := by
        by_contra hcon
        push_neg at hcon
        obtain ⟨x0, hx0, hx0ne⟩ := hcon
        have hall : ∀ a ∈ current, a.midY < bx.midY - tol := by
          intro a hamem
          have hPa : P a = P x0 := hhom a hamem x0 hx0
          have hPne : P a ≠ P bx := by rw [hPa]; exact hx0ne
          have hsepab := hsep a (by simp [hamem]) bx (by simp) hPne
          have hle : a.midY ≤ bx.midY :=
            (List.pairwise_append.mp hpair).2.2 a hamem bx (by simp)
          rw [abs_sub_comm, abs_of_nonneg (by linarith)] at hsepab
          linarith
        have havglt : avg (current.map Box.midY) < bx.midY - tol := by
          apply avg_lt
          · simpa using hne
          · intro y hy
            obtain ⟨a, ha, rfl⟩ := List.mem_map.mp hy
            exact hall a ha
        rw [← havg] at havglt
        have habs : bx.midY - curY ≤ |bx.midY - curY| := le_abs_self _
        linarith
      apply ih (current ++ [bx]) _ (by simp) ?_ ?_ ?_ ?_
      · -- the updated running average is the mean of the extended group
        have hmapne : current.map Box.midY ≠ [] := by simpa using hne
        have := avg_append_singleton hmapne bx.midY
        rw [List.length_map] at this
        rw [havg, this, List.map_append]
        rfl
      · -- sortedness transported along the append re-association
        have : (current ++ [bx]) ++ rest = current ++ bx :: rest := by simp
        rw [this]
        exact hpair
      · -- separation transported
        intro a ha b hb
        apply hsep a ?_ b ?_ <;>
          · simp only [List.append_assoc, List.singleton_append] at ha hb ⊢
            first
              | exact ha
              | exact hb
      · -- extended group is homogeneous
        intro a ha b hb
        rcases List.mem_append.mp ha with ha' | ha'
        · rcases List.mem_append.mp hb with hb' | hb'
          · exact hhom a ha' b hb'
          · rw [List.mem_singleton] at hb'
            subst hb'
            exact hsame a ha'
        · rw [List.mem_singleton] at ha'
          subst ha'
          rcases List.mem_append.mp hb with hb' | hb'
          · exact (hsame b hb').symm
          · rw [List.mem_singleton] at hb'
            subst hb'
            rfl
    · rw [if_neg hjoin]
      intro g hg
      rcases List.mem_cons.mp hg with rfl | hgmem
      · exact fun a ha b hb => hhom a ha b hb
      · refine ih [bx] bx.midY (by simp) ?_ ?_ ?_ ?_ g hgmem
        · simp [avg]
        · have := (List.pairwise_append.mp hpair).2.1
          simpa using this
        · intro a ha b hb
          apply hsep a ?_ b ?_ <;>
            · simp only [List.singleton_append] at ha hb ⊢
              first
                | exact List.mem_append_right current ha
                | exact List.mem_append_right current hb
        · intro a ha b hb
          rw [List.mem_singleton] at ha hb
          subst ha; subst hb; rfl

/-- Claim C9: line grouping uses the adaptive tolerance
`max(8, median height * 0.6)` against the running group average; for any
detection set splitting into two rows whose vertical centers pairwise
differ by more than that tolerance (with both rows inhabited), the
reconstructor produces at least two lines, and no produced line ever mixes
detections of the two rows. -/
theorem claim_C9 (items : List RawItem) (P : Box → Bool)
    (hsep : ∀ a ∈ items.map mkBox, ∀ b ∈ items.map mkBox,
      P a ≠ P b → max 8 (groupMedianH items * (6 / 10)) < |a.midY - b.midY|)
    (hup : ∃ a ∈ items.map mkBox, P a = true)
    (hlo : ∃ b ∈ items.map mkBox, P b = false) :
    2 ≤ (group_boxes_to_lines items).length ∧
      ∀ g ∈ lineGroups items, ∀ a ∈ g, ∀ b ∈ g, P a = P b := by
  obtain ⟨a0, ha0, ha0P⟩ := hup
  obtain ⟨b0, hb0, hb0P⟩ := hlo
  have hsep' : ∀ a ∈ items.map mkBox, ∀ b ∈ items.map mkBox,
      P a ≠ P b → groupTol items < |a.midY - b.midY| := hsep
  have hne : items.map mkBox ≠ [] := by
    intro h0
    rw [h0] at ha0
    cases ha0
  have hmem : ∀ x : Box, x ∈ sortedBoxes items ↔ x ∈ items.map mkBox := by
    intro x
    exact List.mem_insertionSort byYX
  have hsorted : List.Pairwise (fun a b : Box => a.midY ≤ b.midY)
      (sortedBoxes items) := by
    have hs : List.Pairwise byYX (sortedBoxes items) :=
      List.sorted_insertionSort byYX (items.map mkBox)
    refine hs.imp ?_
    rintro a b (h | ⟨h, -⟩)
    · exact le_of_lt h
    · exact le_of_eq h
  obtain ⟨b1, rest, hsb⟩ : ∃ b1 rest, sortedBoxes items = b1 :: rest := by
    cases hsbs : sortedBoxes items with
    | nil =>
      exfalso
      have hx := (hmem a0).mpr ha0
      rw [hsbs] at hx
      cases hx
    | cons x xs => exact ⟨x, xs, rfl⟩
  have hhom : ∀ g ∈ groupLoop (groupTol items) [b1] b1.midY rest,
      ∀ a ∈ g, ∀ b ∈ g, P a = P b := by
    apply groupLoop_homog
    · simp
    · simp [avg]
    · show List.Pairwise _ ([b1] ++ rest)
      rw [List.singleton_append, ← hsb]
      exact hsorted
    · intro a ha b hb hPne
      rw [List.singleton_append, ← hsb] at ha hb
      exact hsep' a ((hmem a).mp ha) b ((hmem b).mp hb) hPne
    · intro a ha b hb
      rw [List.mem_singleton] at ha hb
      subst ha; subst hb; rfl
  have hloopjoin := groupLoop_join (groupTol items) rest [b1] b1.midY
  have hmemloop : ∀ x : Box, x ∈ items.map mkBox →
      ∃ g ∈ groupLoop (groupTol items) [b1] b1.midY rest, x ∈ g := by
    intro x hx
    have hxf : x ∈ (groupLoop (groupTol items) [b1] b1.midY rest).flatten := by
      rw [hloopjoin, List.singleton_append, ← hsb]
      exact (hmem x).mpr hx
    obtain ⟨g, hg, hxg⟩ := List.mem_flatten.mp hxf
    exact ⟨g, hg, hxg⟩
  obtain ⟨gA, hgA, hagA⟩ := hmemloop a0 ha0
  obtain ⟨gB, hgB, hbgB⟩ := hmemloop b0 hb0
  have hgne : gA ≠ gB := by
    intro heq
    have hc := hhom gA hgA a0 hagA b0 (heq ▸ hbgB)
    rw [ha0P, hb0P] at hc
    cases hc
  have h2 : 2 ≤ (groupLoop (groupTol items) [b1] b1.midY rest).length :=
    two_mem_le_length hgA hgB hgne
  constructor
  · unfold group_boxes_to_lines
    rw [if_neg (fun hc => hne (List.isEmpty_iff.mp hc)), hsb]
    show 2 ≤ (sweepLines (groupTol items) (groupMedianH items) [b1] b1.midY rest).length
    rw [sweepLines_eq, List.length_map]
    exact h2
  · unfold lineGroups
    rw [hsb]
    exact hhom

/-- Witness for C9 at two concrete one-detection rows with centers 5 and
105 (median height 10, tolerance 8). -/
theorem claim_C9_witness :
    2 ≤ (group_boxes_to_lines rowItems).length ∧
      ∀ g ∈ lineGroups rowItems, ∀ a ∈ g, ∀ b ∈ g,
        inUpperRow a = inUpperRow b :=
  claim_C9 rowItems inUpperRow (by decide) (by decide) (by decide)

end PdfPipeline
